import Mathlib

/-!
# A verification model of the @jsdsl/semaphore package

This file embeds the two core classes of the repository — `SemaphoreLock`
(src/semaphore-lock.ts) and `Semaphore` (src/semaphore.ts, present in the
repository in two versions: v1.1.0, whose capacity-wait loop awaits
`Promise.any(this.getLockPromises())`, and v1.0.0, whose loop awaits
`Promise.any(Object.values(this.outstandingLocks))`) — as an operational
model of the JavaScript single-threaded event loop restricted to the
behaviours these classes exhibit.

Modelling conventions:

* A `SemaphoreLock`'s `releasePromise` is a one-shot promise; its state is
  `Option Nat` (`none` = pending, `some v` = fulfilled with value `v`; the
  source always fulfills with the lock's own id string, modelled as a `Nat`:
  ids stand for the 128-bit random hex strings, which are fresh-by-retry in
  the source and fresh-by-construction here, using the mint index as the id).
* Promise reactions (`.then` callbacks) registered on a pending promise are
  kept per-promise in registration order (`callbacks`); when the promise is
  resolved, each registered reaction is enqueued, in order, on the global
  microtask queue (`tasks`).  Registering a reaction on an already-settled
  promise enqueues it immediately.  Resolving an already-settled promise is
  a no-op (JS promise semantics).
* `Object.values(this.outstandingLocks)` returns the unreleased-or-not-yet-
  removed locks in insertion order; the model keeps every minted lock in a
  list (`locks`) with an `inMap` flag, so the map's values are
  `locks.filter (·.inMap)` in mint order and `Object.keys(...).length` is
  `countP (·.inMap)`.
* Each call to `getLock()` is a *caller*; the promise that `getLock()`
  returns to its caller is modelled by the caller's `result` field
  (`pending`, `admitted lid`, or `rejected` — the `AggregateError` that
  `Promise.any` produces on an empty iterable).
* A suspended caller sits in the `while (getLockCount() >= getMaximumLockCount())
  await Promise.any(...)` loop.  Each loop iteration is a *round*; the
  handlers its `Promise.any` registered carry the round number, so handlers
  from an earlier (already settled) `Promise.any` of the same caller are
  recognised as stale, exactly as a settled promise ignores further
  resolutions.
-/

namespace JsSem

/-- A promise reaction registered on a lock's `releasePromise`:
either the semaphore's self-removal continuation
(`waitForRelease().then(() => delete this.outstandingLocks[lockID])`,
registered at mint time), or a handler registered by some waiting caller's
`Promise.any` (identified by the caller index and its wait round). -/
inductive Cb where
  | del : Cb
  | anyWake : Nat → Nat → Cb
deriving DecidableEq

/-- One minted `SemaphoreLock` together with the bookkeeping the semaphore
attaches to it: `lockId` is the id bound at construction, `state` is the
one-shot `releasePromise` (`none` pending, `some v` fulfilled with `v`),
`inMap` says whether the id is still a key of `outstandingLocks`, and
`callbacks` are the reactions registered on the release promise, in
registration order. -/
structure SemaphoreLock where
  lockId : Nat
  state : Option Nat
  inMap : Bool
  callbacks : List Cb
deriving DecidableEq

/-- The outcome visible to one `getLock()` caller: still suspended,
admitted with a lock id, or rejected (the `AggregateError` produced by
`Promise.any` over an empty iterable). -/
inductive CallerResult where
  | pending : CallerResult
  | admitted : Nat → CallerResult
  | rejected : CallerResult
deriving DecidableEq

/-- One `getLock()` call: `round` counts the iterations of its
capacity-wait loop (so that handlers registered by an earlier, already
settled `Promise.any` of this caller are recognised as stale), and
`result` is the state of the promise `getLock()` returned to it. -/
structure Caller where
  round : Nat
  result : CallerResult
deriving DecidableEq

/-- A queued microtask: the semaphore's delete-continuation for a released
lock, a waiting caller's `Promise.any` handler firing with a lock id, or
the rejection reaction of a `Promise.any` over an empty iterable. -/
inductive MTask where
  | del : Nat → MTask
  | anyResolve : Nat → Nat → Nat → MTask
  | anyReject : Nat → Nat → MTask
deriving DecidableEq

/-- The whole system state: one `Semaphore` instance (capacity
`maxLockCount`, the minted locks carrying the `outstandingLocks` map via
their `inMap` flags), the `getLock()` callers, and the event loop's
microtask queue. -/
structure Semaphore where
  maxLockCount : Int
  locks : List SemaphoreLock
  callers : List Caller
  tasks : List MTask
deriving DecidableEq

/-- The constructor `new Semaphore(maxLockCount)`: stores the capacity
without validating it and initialises an empty outstanding-lock map.
A total function: construction never fails, for any capacity. -/
def mkSemaphore (maxLockCount : Int) : Semaphore :=
  { maxLockCount := maxLockCount, locks := [], callers := [], tasks := [] }

/-- The values of `this.outstandingLocks`, in insertion order. -/
def outstanding (s : Semaphore) : List SemaphoreLock :=
  s.locks.filter (·.inMap)

/-- Source `getLockCount()`: `Object.keys(this.outstandingLocks).length`. -/
def getLockCount (s : Semaphore) : Nat :=
  s.locks.countP (·.inMap)

/-- Source `getMaximumLockCount()`: returns the stored capacity. -/
def getMaximumLockCount (s : Semaphore) : Int :=
  s.maxLockCount

/-- The guard of the capacity-wait loop:
`this.getLockCount() >= this.getMaximumLockCount()`. -/
def atCapacity (s : Semaphore) : Bool :=
  s.maxLockCount ≤ (getLockCount s : Int)

/-- Rewrite one lock (found by id) with `f`, leaving all others alone. -/
def updateLock (s : Semaphore) (lid : Nat) (f : SemaphoreLock → SemaphoreLock) :
    Semaphore :=
  { s with locks := s.locks.map (fun l => if l.lockId = lid then f l else l) }

/-- Look a lock up by id (first match in mint order). -/
def findLock (s : Semaphore) (lid : Nat) : Option SemaphoreLock :=
  s.locks.find? (·.lockId = lid)

/-- The state of the `releasePromise` of the lock with id `lid` (`none`
when pending or when no such lock exists). -/
def releaseState (s : Semaphore) (lid : Nat) : Option Nat :=
  match findLock s lid with
  | some lk => lk.state
  | none => none

/-- The result field of caller `wid` (`pending` when out of range). -/
def resultOf (s : Semaphore) (wid : Nat) : CallerResult :=
  (s.callers.getD wid { round := 0, result := CallerResult.pending }).result

/-- Number of callers whose `getLock()` promise has resolved with a lock. -/
def admittedCount (s : Semaphore) : Nat :=
  s.callers.countP (fun c =>
    match c.result with
    | CallerResult.admitted _ => true
    | _ => false)

/-- Steps 2–4 of `getLock()` past the wait loop: generate a fresh id
(fresh-by-construction here, standing for the random-retry loop of the
source), construct the `SemaphoreLock`, insert it into the map, and
register the self-removal continuation on its release promise.  Returns
the updated state and the new lock's id. -/
def admitNow (s : Semaphore) : Semaphore × Nat :=
  let lid := s.locks.length
  ({ s with
      locks := s.locks ++
        [{ lockId := lid, state := none, inMap := true, callbacks := [Cb.del] }] },
   lid)

/-- Register caller `wid` (round `r`) as a `Promise.any` observer on the
release promise of the (pending) lock `lid`. -/
def attachWaiter (s : Semaphore) (lid wid r : Nat) : Semaphore :=
  updateLock s lid (fun lk => { lk with callbacks := lk.callbacks ++ [Cb.anyWake wid r] })

/-- One member of `Promise.any`'s iterable being processed for caller
`wid`, round `r`: a pending release promise gets a handler registered;
an already-fulfilled one enqueues its reaction immediately. -/
def waitStep (wid r : Nat) (s : Semaphore) (l : SemaphoreLock) : Semaphore :=
  match l.state with
  | some _ => { s with tasks := s.tasks ++ [MTask.anyResolve wid r l.lockId] }
  | none => attachWaiter s l.lockId wid r

/-- The suspension `await Promise.any(this.getLockPromises())` of v1.1.0
(`getLockPromises()` maps every outstanding lock to `waitForRelease()`):
over an empty iterable `Promise.any` rejects with an `AggregateError`
(reaction enqueued); otherwise it subscribes to every member's release
promise. -/
def startWaitB (s : Semaphore) (wid r : Nat) : Semaphore :=
  let snap := outstanding s
  if snap.isEmpty then
    { s with tasks := s.tasks ++ [MTask.anyReject wid r] }
  else
    snap.foldl (waitStep wid r) s

/-- The suspension `await Promise.any(Object.values(this.outstandingLocks))`
of v1.0.0: the iterable's members are the `SemaphoreLock` objects
themselves, which are not thenables, so `Promise.any` treats each as an
already-fulfilled promise and its reaction is enqueued immediately — no
handler is ever registered on any release promise. -/
def startWaitA (s : Semaphore) (wid r : Nat) : Semaphore :=
  let snap := outstanding s
  if snap.isEmpty then
    { s with tasks := s.tasks ++ [MTask.anyReject wid r] }
  else
    { s with tasks := s.tasks ++ snap.map (fun l => MTask.anyResolve wid r l.lockId) }

/-- Replace caller `wid`'s result. -/
def setResult (s : Semaphore) (wid : Nat) (r : CallerResult) : Semaphore :=
  { s with
      callers := s.callers.set wid
        { round := (s.callers.getD wid { round := 0, result := CallerResult.pending }).round,
          result := r } }

/-- Replace caller `wid`'s wait round. -/
def setRound (s : Semaphore) (wid r : Nat) : Semaphore :=
  { s with
      callers := s.callers.set wid
        { round := r,
          result := (s.callers.getD wid { round := 0, result := CallerResult.pending }).result } }

/-- Caller `wid`'s current round. -/
def roundOf (s : Semaphore) (wid : Nat) : Nat :=
  (s.callers.getD wid { round := 0, result := CallerResult.pending }).round

/-- A fresh call to v1.1.0 `getLock()`: run synchronously to the first
suspension point.  Below capacity the loop body never runs and the caller
is admitted at once; at (or above) capacity the caller suspends in
`await Promise.any(this.getLockPromises())`. -/
def getLockCallB (s : Semaphore) : Semaphore :=
  if atCapacity s then
    let wid := s.callers.length
    startWaitB { s with callers := s.callers ++ [{ round := 0, result := CallerResult.pending }] } wid 0
  else
    let p := admitNow s
    { p.1 with callers := p.1.callers ++ [{ round := 0, result := CallerResult.admitted p.2 }] }

/-- A suspended v1.1.0 caller resuming at the loop head after its
`Promise.any` settled: re-evaluate the guard; still at capacity means wait
again (a fresh `Promise.any`, hence a fresh round); otherwise fall through
to admission. -/
def wakeLoopB (s : Semaphore) (wid : Nat) : Semaphore :=
  if atCapacity s then
    let r := roundOf s wid + 1
    startWaitB (setRound s wid r) wid r
  else
    let p := admitNow s
    setResult p.1 wid (CallerResult.admitted p.2)

/-- Run the front microtask of the v1.1.0 system: the delete-continuation
removes its lock from the map; an `anyResolve`/`anyReject` reaction whose
caller is still on the same round and unresolved settles that caller's
`Promise.any` (waking the loop, resp. rejecting `getLock()`); stale
reactions (settled `Promise.any` of an earlier round, or already-resolved
caller) are ignored. -/
def runTaskB (s : Semaphore) : Semaphore :=
  match s.tasks with
  | [] => s
  | t :: rest =>
    let s0 := { s with tasks := rest }
    match t with
    | MTask.del lid => updateLock s0 lid (fun lk => { lk with inMap := false })
    | MTask.anyResolve wid r _ =>
      if roundOf s0 wid = r ∧ resultOf s0 wid = CallerResult.pending then
        wakeLoopB s0 wid
      else s0
    | MTask.anyReject wid r =>
      if roundOf s0 wid = r ∧ resultOf s0 wid = CallerResult.pending then
        setResult s0 wid CallerResult.rejected
      else s0

/-- The `release()` method of `SemaphoreLock`:
`this.releaseFunction(this.getID())`, i.e. resolve the one-shot
`releasePromise` with the bound id.  Resolving an already-settled promise
is a no-op; resolving a pending one fulfills it with the lock's id and
enqueues every registered reaction in registration order. -/
def release (s : Semaphore) (lid : Nat) : Semaphore :=
  match findLock s lid with
  | none => s
  | some lk =>
    match lk.state with
    | some _ => s
    | none =>
      let s1 := updateLock s lid (fun l => { l with state := some l.lockId })
      { s1 with
          tasks := s1.tasks ++ lk.callbacks.map (fun cb =>
            match cb with
            | Cb.del => MTask.del lid
            | Cb.anyWake w r => MTask.anyResolve w r lid) }

/-- An observable action on the v1.1.0 system: a new `getLock()` call, a
`release()` call on the lock with a given id, or the event loop running
one microtask. -/
inductive Action where
  | call : Action
  | rel : Nat → Action
  | tick : Action
deriving DecidableEq

/-- Apply one action (v1.1.0 system). -/
def applyB (s : Semaphore) (a : Action) : Semaphore :=
  match a with
  | Action.call => getLockCallB s
  | Action.rel lid => release s lid
  | Action.tick => runTaskB s

/-- Run a trace of actions (v1.1.0 system). -/
def runB (s : Semaphore) (tr : List Action) : Semaphore :=
  tr.foldl applyB s

/-- Run `k` microtasks (v1.1.0 system). -/
def runTasksB : Nat → Semaphore → Semaphore
  | 0, s => s
  | k + 1, s => runTasksB k (runTaskB s)

/-- A fresh call to v1.0.0 `getLock()` — identical to v1.1.0 except for
what the wait awaits. -/
def getLockCallA (s : Semaphore) : Semaphore :=
  if atCapacity s then
    let wid := s.callers.length
    startWaitA { s with callers := s.callers ++ [{ round := 0, result := CallerResult.pending }] } wid 0
  else
    let p := admitNow s
    { p.1 with callers := p.1.callers ++ [{ round := 0, result := CallerResult.admitted p.2 }] }

/-- A suspended v1.0.0 caller resuming at the loop head. -/
def wakeLoopA (s : Semaphore) (wid : Nat) : Semaphore :=
  if atCapacity s then
    let r := roundOf s wid + 1
    startWaitA (setRound s wid r) wid r
  else
    let p := admitNow s
    setResult p.1 wid (CallerResult.admitted p.2)

/-- Run the front microtask of the v1.0.0 system. -/
def runTaskA (s : Semaphore) : Semaphore :=
  match s.tasks with
  | [] => s
  | t :: rest =>
    let s0 := { s with tasks := rest }
    match t with
    | MTask.del lid => updateLock s0 lid (fun lk => { lk with inMap := false })
    | MTask.anyResolve wid r _ =>
      if roundOf s0 wid = r ∧ resultOf s0 wid = CallerResult.pending then
        wakeLoopA s0 wid
      else s0
    | MTask.anyReject wid r =>
      if roundOf s0 wid = r ∧ resultOf s0 wid = CallerResult.pending then
        setResult s0 wid CallerResult.rejected
      else s0

/-- Apply one action (v1.0.0 system). -/
def applyA (s : Semaphore) (a : Action) : Semaphore :=
  match a with
  | Action.call => getLockCallA s
  | Action.rel lid => release s lid
  | Action.tick => runTaskA s

/-- Run a trace of actions (v1.0.0 system). -/
def runA (s : Semaphore) (tr : List Action) : Semaphore :=
  tr.foldl applyA s

/-- Run `k` microtasks (v1.0.0 system). -/
def runTasksA : Nat → Semaphore → Semaphore
  | 0, s => s
  | k + 1, s => runTasksA k (runTaskA s)

/-- The `performLockedOperation(operation)` method of v1.1.0, on its
non-suspending admission path (`getLock()` resolves without waiting when
capacity remains): `let lock = await this.getLock();
try { return await operation(); } catch (error) { throw error; }
finally { lock.release(); }`.  The operation's eventual outcome (a normal
return of a value, or a failure with an error — covering both synchronous
returns/throws and settled thenables, which `await` unwraps alike) is the
`Except` argument; the `catch` clause rethrows the original error value
unchanged, and the `finally` clause releases the lock on both paths before
the method's promise settles.  Returns `none` when the call would have to
suspend in `getLock()`. -/
def performLockedOperation {E V : Type} (s : Semaphore) (op : Except E V) :
    Option (Semaphore × Except E V) :=
  if atCapacity s then none
  else
    let p := admitNow s
    let outcome : Except E V :=
      match op with
      | Except.ok v => Except.ok v
      | Except.error e => Except.error e
    some (release p.1 p.2, outcome)

/-- The promise-independent skeleton of a lock: its id, release-promise
state and map membership — everything about it that the observable
counters and lookups depend on. -/
def skel (l : SemaphoreLock) : Nat × Option Nat × Bool :=
  (l.lockId, l.state, l.inMap)

/-- Ids of minted locks are below the mint counter, so a freshly minted id
collides with no existing lock (the model's counterpart of the
random-retry-until-unique id generation). -/
def wellFormed (s : Semaphore) : Prop :=
  ∀ lk ∈ s.locks, lk.lockId < s.locks.length

/-- The lock minted by the `i`-th immediate admission of a fresh
semaphore. -/
def kLock (i : Nat) : SemaphoreLock :=
  { lockId := i, state := none, inMap := true, callbacks := [Cb.del] }

/-- The caller record of the `i`-th immediate admission of a fresh
semaphore. -/
def okCaller (i : Nat) : Caller :=
  { round := 0, result := CallerResult.admitted i }

/-- The state of a fresh `Semaphore(n)` after `k` sequential `getLock()`
calls, all admitted immediately (`k ≤ n`). -/
def explicitState (n k : Nat) : Semaphore :=
  { maxLockCount := (n : Int),
    locks := (List.range k).map kLock,
    callers := (List.range k).map okCaller,
    tasks := [] }

/-- The outstanding-lock-map invariant that actually holds of the code
(C8, amended): every position holds the lock whose id it was minted under
(so ids are unique and each map entry is the one lock bound to its id);
an unreleased lock is always registered in the map (registration lasts
from admission until at least release — removal is the release reaction);
and a removal reaction is only ever queued for an already-released lock. -/
def MapInv (s : Semaphore) : Prop :=
  (∀ (i : Nat) (lk : SemaphoreLock), s.locks[i]? = some lk → lk.lockId = i) ∧
  (∀ lk ∈ s.locks, lk.state = none → lk.inMap = true) ∧
  (∀ lid, MTask.del lid ∈ s.tasks → releaseState s lid ≠ none)

/-- What a semaphore of non-positive capacity can reach (C9, amended): no
lock is ever minted, the only queued microtasks are `Promise.any`
rejections over the empty iterable, and every `getLock()` caller is still
pending or has been rejected with the `AggregateError` — none is ever
admitted. -/
def DeadCapInv (s : Semaphore) : Prop :=
  s.locks = [] ∧
  (∀ t ∈ s.tasks, ∃ w r, t = MTask.anyReject w r) ∧
  (∀ c ∈ s.callers, c.result = CallerResult.pending ∨ c.result = CallerResult.rejected)

/-- Capacity-3 FIFO scenario of the spec: three locks acquired (ids 0, 1,
2), then three more `getLock()` calls (callers 3, 4, 5) that must wait. -/
def fifoStart : Semaphore :=
  runB (mkSemaphore 3) (List.replicate 6 Action.call)

/-- The FIFO scenario after lock 0 is released and the event loop drains. -/
def fifoAfter0 : Semaphore :=
  runTasksB 10 (release fifoStart 0)

/-- The FIFO scenario after locks 0 and 1 are released (each release
followed by a drained event loop). -/
def fifoAfter1 : Semaphore :=
  runTasksB 10 (release fifoAfter0 1)

/-- The FIFO scenario after locks 0, 1 and 2 are released. -/
def fifoAfter2 : Semaphore :=
  runTasksB 10 (release fifoAfter1 2)

/-- Capacity-1 comparison state: one lock held, a second `getLock()`
issued, under the v1.1.0 wait (`Promise.any` of `waitForRelease()`
promises). -/
def cmpB : Semaphore :=
  runB (mkSemaphore 1) [Action.call, Action.call]

/-- Capacity-1 comparison state: one lock held, a second `getLock()`
issued, under the v1.0.0 wait (`Promise.any` of the lock objects). -/
def cmpA : Semaphore :=
  runA (mkSemaphore 1) [Action.call, Action.call]

/-- A semaphore of capacity 1 whose single lock has just been released
synchronously — the release reaction that removes it from the map has not
yet run. -/
def justReleased : Semaphore :=
  release (runB (mkSemaphore 1) [Action.call]) 0

/-- A capacity-2 semaphore holding one pending lock (id 0); used to
instantiate lock-level theorems at a concrete input. -/
def oneLockHeld : Semaphore :=
  runB (mkSemaphore 2) [Action.call]

end JsSem

namespace JsSem

/-! ## Generic list helpers -/

theorem countP_map_of_pres {α : Type} (p : α → Bool) (g : α → α)
    (h : ∀ x, p (g x) = p x) (l : List α) :
    List.countP p (List.map g l) = List.countP p l := by
  induction l with
  | nil => rfl
  | cons a t ih => simp [List.countP_cons, ih, h]

theorem countP_map_le_of_pres {α : Type} (p : α → Bool) (g : α → α)
    (h : ∀ x, p (g x) = true → p x = true) (l : List α) :
    List.countP p (List.map g l) ≤ List.countP p l := by
  rw [List.countP_map]
  exact List.countP_mono_left (fun x _ hx => h x hx)

theorem find?_map_of_pres {α : Type} (p : α → Bool) (g : α → α)
    (h : ∀ x, p (g x) = p x) (l : List α) :
    List.find? p (List.map g l) = (List.find? p l).map g := by
  induction l with
  | nil => rfl
  | cons a t ih =>
    simp only [List.map_cons, List.find?_cons]
    cases hpa : p a with
    | true => simp [h a, hpa]
    | false => simp [h a, hpa, ih]

/-! ## Frame lemmas for the elementary state transformers -/

theorem updateLock_tasks (s : Semaphore) (lid : Nat) (f : SemaphoreLock → SemaphoreLock) :
    (updateLock s lid f).tasks = s.tasks := rfl

theorem updateLock_callers (s : Semaphore) (lid : Nat) (f : SemaphoreLock → SemaphoreLock) :
    (updateLock s lid f).callers = s.callers := rfl

theorem updateLock_max (s : Semaphore) (lid : Nat) (f : SemaphoreLock → SemaphoreLock) :
    (updateLock s lid f).maxLockCount = s.maxLockCount := rfl

theorem getLockCount_updateLock (s : Semaphore) (lid : Nat)
    (f : SemaphoreLock → SemaphoreLock) (hf : ∀ l, (f l).inMap = l.inMap) :
    getLockCount (updateLock s lid f) = getLockCount s := by
  unfold getLockCount updateLock
  exact countP_map_of_pres _ _ (fun x => by by_cases h : x.lockId = lid <;> simp [h, hf]) _

theorem getLockCount_updateLock_le (s : Semaphore) (lid : Nat)
    (f : SemaphoreLock → SemaphoreLock) (hf : ∀ l, (f l).inMap = true → l.inMap = true) :
    getLockCount (updateLock s lid f) ≤ getLockCount s := by
  unfold getLockCount updateLock
  refine countP_map_le_of_pres _ _ (fun x hx => ?_) _
  by_cases h : x.lockId = lid
  · simp only [h, if_true] at hx
    exact hf x hx
  · simpa [h] using hx

theorem findLock_updateLock (s : Semaphore) (lid lid' : Nat)
    (f : SemaphoreLock → SemaphoreLock) (hf : ∀ l, (f l).lockId = l.lockId) :
    findLock (updateLock s lid f) lid' =
      (findLock s lid').map (fun l => if l.lockId = lid then f l else l) := by
  unfold findLock updateLock
  exact find?_map_of_pres _ _ (fun x => by by_cases h : x.lockId = lid <;> simp [h, hf]) _

theorem releaseState_updateLock (s : Semaphore) (lid lid' : Nat)
    (f : SemaphoreLock → SemaphoreLock) (hf : ∀ l, (f l).lockId = l.lockId)
    (hs : ∀ l, (f l).state = l.state) :
    releaseState (updateLock s lid f) lid' = releaseState s lid' := by
  unfold releaseState
  rw [findLock_updateLock s lid lid' f hf]
  cases h : findLock s lid' with
  | none => rfl
  | some lk => by_cases hl : lk.lockId = lid <;> simp [hl, hs]

theorem skel_map_updateLock (s : Semaphore) (lid : Nat)
    (f : SemaphoreLock → SemaphoreLock) (hf : ∀ l, skel (f l) = skel l) :
    (updateLock s lid f).locks.map skel = s.locks.map skel := by
  unfold updateLock
  simp only [List.map_map]
  exact List.map_congr_left (fun a _ => by by_cases h : a.lockId = lid <;> simp [h, hf])

theorem setResult_locks (s : Semaphore) (wid : Nat) (r : CallerResult) :
    (setResult s wid r).locks = s.locks := rfl

theorem setResult_tasks (s : Semaphore) (wid : Nat) (r : CallerResult) :
    (setResult s wid r).tasks = s.tasks := rfl

theorem setResult_max (s : Semaphore) (wid : Nat) (r : CallerResult) :
    (setResult s wid r).maxLockCount = s.maxLockCount := rfl

theorem setRound_locks (s : Semaphore) (wid r : Nat) :
    (setRound s wid r).locks = s.locks := rfl

theorem setRound_tasks (s : Semaphore) (wid r : Nat) :
    (setRound s wid r).tasks = s.tasks := rfl

theorem setRound_max (s : Semaphore) (wid r : Nat) :
    (setRound s wid r).maxLockCount = s.maxLockCount := rfl

theorem getLockCount_setResult (s : Semaphore) (wid : Nat) (r : CallerResult) :
    getLockCount (setResult s wid r) = getLockCount s := rfl

theorem getLockCount_setRound (s : Semaphore) (wid r : Nat) :
    getLockCount (setRound s wid r) = getLockCount s := rfl

theorem admitNow_count (s : Semaphore) :
    getLockCount (admitNow s).1 = getLockCount s + 1 := by
  unfold getLockCount admitNow
  simp [List.countP_append, List.countP_cons]

theorem admitNow_tasks (s : Semaphore) : (admitNow s).1.tasks = s.tasks := rfl

theorem admitNow_max (s : Semaphore) : (admitNow s).1.maxLockCount = s.maxLockCount := rfl

theorem admitNow_callers (s : Semaphore) : (admitNow s).1.callers = s.callers := rfl


/-! ## Frame lemmas for the wait subscription -/

theorem waitStep_callers (wid r : Nat) (s : Semaphore) (l : SemaphoreLock) :
    (waitStep wid r s l).callers = s.callers := by
  unfold waitStep
  cases l.state <;> rfl

theorem waitStep_max (wid r : Nat) (s : Semaphore) (l : SemaphoreLock) :
    (waitStep wid r s l).maxLockCount = s.maxLockCount := by
  unfold waitStep
  cases l.state <;> rfl

theorem waitStep_count (wid r : Nat) (s : Semaphore) (l : SemaphoreLock) :
    getLockCount (waitStep wid r s l) = getLockCount s := by
  unfold waitStep
  cases l.state with
  | none => exact getLockCount_updateLock _ _ _ (fun x => rfl)
  | some v => rfl

theorem waitStep_releaseState (wid r : Nat) (s : Semaphore) (l : SemaphoreLock) (lid : Nat) :
    releaseState (waitStep wid r s l) lid = releaseState s lid := by
  unfold waitStep
  cases l.state with
  | none => exact releaseState_updateLock _ _ _ _ (fun x => rfl) (fun x => rfl)
  | some v => rfl

theorem waitStep_skel (wid r : Nat) (s : Semaphore) (l : SemaphoreLock) :
    (waitStep wid r s l).locks.map skel = s.locks.map skel := by
  unfold waitStep
  cases l.state with
  | none => exact skel_map_updateLock _ _ _ (fun x => rfl)
  | some v => rfl

theorem waitStep_tasks_of_pending (wid r : Nat) (s : Semaphore) (l : SemaphoreLock)
    (h : l.state = none) : (waitStep wid r s l).tasks = s.tasks := by
  unfold waitStep
  rw [h]
  rfl

theorem waitFold_callers (wid r : Nat) (L : List SemaphoreLock) (s : Semaphore) :
    (L.foldl (waitStep wid r) s).callers = s.callers := by
  induction L generalizing s with
  | nil => rfl
  | cons l t ih => rw [List.foldl_cons, ih, waitStep_callers]

theorem waitFold_max (wid r : Nat) (L : List SemaphoreLock) (s : Semaphore) :
    (L.foldl (waitStep wid r) s).maxLockCount = s.maxLockCount := by
  induction L generalizing s with
  | nil => rfl
  | cons l t ih => rw [List.foldl_cons, ih, waitStep_max]

theorem waitFold_count (wid r : Nat) (L : List SemaphoreLock) (s : Semaphore) :
    getLockCount (L.foldl (waitStep wid r) s) = getLockCount s := by
  induction L generalizing s with
  | nil => rfl
  | cons l t ih => rw [List.foldl_cons, ih, waitStep_count]

theorem waitFold_releaseState (wid r : Nat) (L : List SemaphoreLock) (s : Semaphore)
    (lid : Nat) :
    releaseState (L.foldl (waitStep wid r) s) lid = releaseState s lid := by
  induction L generalizing s with
  | nil => rfl
  | cons l t ih => rw [List.foldl_cons, ih, waitStep_releaseState]

theorem waitFold_skel (wid r : Nat) (L : List SemaphoreLock) (s : Semaphore) :
    (L.foldl (waitStep wid r) s).locks.map skel = s.locks.map skel := by
  induction L generalizing s with
  | nil => rfl
  | cons l t ih => rw [List.foldl_cons, ih, waitStep_skel]

theorem waitFold_tasks_of_pending (wid r : Nat) (L : List SemaphoreLock) (s : Semaphore)
    (h : ∀ l ∈ L, l.state = none) : (L.foldl (waitStep wid r) s).tasks = s.tasks := by
  induction L generalizing s with
  | nil => rfl
  | cons l t ih =>
    rw [List.foldl_cons, ih _ (fun x hx => h x (List.mem_cons_of_mem _ hx)),
      waitStep_tasks_of_pending _ _ _ _ (h l (List.mem_cons_self _ _))]

theorem startWaitB_callers (s : Semaphore) (wid r : Nat) :
    (startWaitB s wid r).callers = s.callers := by
  unfold startWaitB
  by_cases h : (outstanding s).isEmpty <;> simp [h, waitFold_callers]

theorem startWaitB_max (s : Semaphore) (wid r : Nat) :
    (startWaitB s wid r).maxLockCount = s.maxLockCount := by
  unfold startWaitB
  by_cases h : (outstanding s).isEmpty <;> simp [h, waitFold_max]

theorem startWaitB_count (s : Semaphore) (wid r : Nat) :
    getLockCount (startWaitB s wid r) = getLockCount s := by
  unfold startWaitB
  by_cases h : (outstanding s).isEmpty
  · simp only [h, if_true]
    rfl
  · simp only [h, Bool.false_eq_true, if_false]
    exact waitFold_count _ _ _ _

theorem startWaitB_releaseState (s : Semaphore) (wid r lid : Nat) :
    releaseState (startWaitB s wid r) lid = releaseState s lid := by
  unfold startWaitB
  by_cases h : (outstanding s).isEmpty
  · simp only [h, if_true]
    rfl
  · simp only [h, Bool.false_eq_true, if_false]
    exact waitFold_releaseState _ _ _ _ _

theorem startWaitB_skel (s : Semaphore) (wid r : Nat) :
    (startWaitB s wid r).locks.map skel = s.locks.map skel := by
  unfold startWaitB
  by_cases h : (outstanding s).isEmpty <;> simp [h, waitFold_skel]

theorem startWaitB_tasks_of_pending (s : Semaphore) (wid r : Nat)
    (hp : ∀ l ∈ outstanding s, l.state = none) (hne : (outstanding s).isEmpty = false) :
    (startWaitB s wid r).tasks = s.tasks := by
  unfold startWaitB
  simp only [hne, Bool.false_eq_true, if_false]
  exact waitFold_tasks_of_pending _ _ _ _ hp

/-! ## Frame lemmas for release and the event loop -/

theorem release_callers (s : Semaphore) (lid : Nat) :
    (release s lid).callers = s.callers := by
  unfold release
  split
  · rfl
  · split
    · rfl
    · rfl

theorem release_max (s : Semaphore) (lid : Nat) :
    (release s lid).maxLockCount = s.maxLockCount := by
  unfold release
  split
  · rfl
  · split
    · rfl
    · rfl

theorem release_count (s : Semaphore) (lid : Nat) :
    getLockCount (release s lid) = getLockCount s := by
  unfold release
  split
  · rfl
  · split
    · rfl
    · exact getLockCount_updateLock _ _ _ (fun x => rfl)

theorem release_of_settled (s : Semaphore) (lid : Nat) (lk : SemaphoreLock)
    (h1 : findLock s lid = some lk) (h2 : lk.state.isSome) :
    release s lid = s := by
  obtain ⟨v, hv⟩ := Option.isSome_iff_exists.mp h2
  simp [release, h1, hv]

theorem runTasksB_of_nil (k : Nat) (s : Semaphore) (h : s.tasks = []) :
    runTasksB k s = s := by
  induction k with
  | zero => rfl
  | succ k ih =>
    show runTasksB k (runTaskB s) = s
    have hstep : runTaskB s = s := by
      unfold runTaskB
      rw [h]
    rw [hstep, ih]


/-! ## The release transition on a pending lock -/

theorem lockId_of_findLock (s : Semaphore) (lid : Nat) (lk : SemaphoreLock)
    (h : findLock s lid = some lk) : lk.lockId = lid := by
  have := List.find?_some h
  simpa using this

theorem release_of_pending (s : Semaphore) (lid : Nat) (lk : SemaphoreLock)
    (h1 : findLock s lid = some lk) (h2 : lk.state = none) :
    release s lid =
      { updateLock s lid (fun l => { l with state := some l.lockId }) with
          tasks := s.tasks ++ lk.callbacks.map (fun cb =>
            match cb with
            | Cb.del => MTask.del lid
            | Cb.anyWake w r => MTask.anyResolve w r lid) } := by
  simp [release, h1, h2]
  rfl

theorem findLock_release_pending (s : Semaphore) (lid : Nat) (lk : SemaphoreLock)
    (h1 : findLock s lid = some lk) (h2 : lk.state = none) :
    findLock (release s lid) lid = some { lk with state := some lk.lockId } := by
  have h3 := findLock_updateLock s lid lid
    (fun l => { l with state := some l.lockId }) (fun l => rfl)
  rw [h1] at h3
  rw [release_of_pending s lid lk h1 h2]
  simpa [lockId_of_findLock s lid lk h1] using h3

theorem releaseState_release_pending (s : Semaphore) (lid : Nat) (lk : SemaphoreLock)
    (h1 : findLock s lid = some lk) (h2 : lk.state = none) :
    releaseState (release s lid) lid = some lid := by
  unfold releaseState
  rw [findLock_release_pending s lid lk h1 h2]
  simp [lockId_of_findLock s lid lk h1]


/-- C5: for every lock distributed by a semaphore (a registered lock whose
release promise is still pending, carrying the semaphore's removal
reaction), `release()` fires the removal notification exactly once, and a
second `release()` call on the same lock is a no-op: the whole system
state is unchanged by it, so nothing is re-fired, nothing throws, the
count is not decremented twice and the mapping is not corrupted; the
count itself only changes when the queued removal reaction later runs. -/
theorem second_release_noop (s : Semaphore) (lid : Nat) (lk : SemaphoreLock)
    (h1 : findLock s lid = some lk) (h2 : lk.state = none)
    (h3 : lk.callbacks = [Cb.del]) :
    (release s lid).tasks = s.tasks ++ [MTask.del lid]
    ∧ release (release s lid) lid = release s lid
    ∧ getLockCount (release s lid) = getLockCount s := by
  refine ⟨?_, ?_, release_count s lid⟩
  · rw [release_of_pending s lid lk h1 h2, h3]
    rfl
  · exact release_of_settled (release s lid) lid _
      (findLock_release_pending s lid lk h1 h2) rfl

/-- Witness for `second_release_noop`: the capacity-2 semaphore holding
one pending lock with id 0. -/
theorem second_release_noop_witness :
    findLock oneLockHeld 0 =
      some { lockId := 0, state := none, inMap := true, callbacks := [Cb.del] }
    ∧ ((release oneLockHeld 0).tasks = oneLockHeld.tasks ++ [MTask.del 0]
       ∧ release (release oneLockHeld 0) 0 = release oneLockHeld 0
       ∧ getLockCount (release oneLockHeld 0) = getLockCount oneLockHeld) :=
  ⟨by decide,
   second_release_noop oneLockHeld 0
     { lockId := 0, state := none, inMap := true, callbacks := [Cb.del] }
     (by decide) (by decide) (by decide)⟩

/-! ## Stability of a release promise's state under every action -/

theorem releaseState_setResult (s : Semaphore) (wid : Nat) (r : CallerResult) (lid : Nat) :
    releaseState (setResult s wid r) lid = releaseState s lid := rfl

theorem releaseState_setRound (s : Semaphore) (wid r lid : Nat) :
    releaseState (setRound s wid r) lid = releaseState s lid := rfl

theorem releaseState_some_elim (s : Semaphore) (lid : Nat) (v : Nat)
    (h : releaseState s lid = some v) :
    ∃ lk, findLock s lid = some lk ∧ lk.state = some v := by
  unfold releaseState at h
  cases h2 : findLock s lid with
  | none => rw [h2] at h; cases h
  | some lk => rw [h2] at h; exact ⟨lk, rfl, h⟩

theorem releaseState_admitNow_of_some (s : Semaphore) (lid : Nat) (v : Nat)
    (h : releaseState s lid = some v) :
    releaseState (admitNow s).1 lid = some v := by
  obtain ⟨lk, hf, hs⟩ := releaseState_some_elim s lid v h
  unfold releaseState findLock admitNow
  unfold findLock at hf
  rw [List.find?_append, hf]
  simpa using hs

theorem releaseState_admitNow_of_none (s : Semaphore) (lid : Nat)
    (h : releaseState s lid = none) :
    releaseState (admitNow s).1 lid = none := by
  unfold releaseState at h ⊢
  unfold findLock at h ⊢
  unfold admitNow
  rw [List.find?_append]
  cases h2 : List.find? (fun x => decide (x.lockId = lid)) s.locks with
  | some lk =>
    rw [h2] at h
    simpa [h2] using h
  | none =>
    rw [h2] at h
    simp only [h2, Option.or]
    cases h3 : List.find? (fun x => decide (x.lockId = lid))
        [({ lockId := s.locks.length, state := none, inMap := true,
            callbacks := [Cb.del] } : SemaphoreLock)] with
    | none => rfl
    | some lk =>
      have := List.find?_some h3
      have hmem := List.mem_of_find?_eq_some h3
      simp at hmem
      rw [hmem]

theorem release_of_none (s : Semaphore) (lid : Nat)
    (h : findLock s lid = none) : release s lid = s := by
  unfold release
  rw [h]

theorem release_cases (s : Semaphore) (lid : Nat) :
    release s lid = s ∨
    ∃ lk, findLock s lid = some lk ∧ lk.state = none ∧
      release s lid =
        { updateLock s lid (fun l => { l with state := some l.lockId }) with
            tasks := s.tasks ++ lk.callbacks.map (fun cb =>
              match cb with
              | Cb.del => MTask.del lid
              | Cb.anyWake w r => MTask.anyResolve w r lid) } := by
  cases hf : findLock s lid with
  | none => exact Or.inl (release_of_none s lid hf)
  | some lk =>
    cases hs : lk.state with
    | some v =>
      exact Or.inl (release_of_settled s lid lk hf (by rw [hs]; rfl))
    | none =>
      exact Or.inr ⟨lk, rfl, hs, release_of_pending s lid lk hf hs⟩

theorem findLock_release_pending_other (s : Semaphore) (lid2 : Nat)
    (lk2 : SemaphoreLock) (hf2 : findLock s lid2 = some lk2)
    (hs2 : lk2.state = none) (lid : Nat) :
    findLock (release s lid2) lid =
      (findLock s lid).map
        (fun l => if l.lockId = lid2 then { l with state := some l.lockId } else l) := by
  rw [release_of_pending s lid2 lk2 hf2 hs2]
  exact findLock_updateLock s lid2 lid
    (fun l => { l with state := some l.lockId }) (fun l => rfl)

theorem releaseState_release_of_some (s : Semaphore) (lid lid2 v : Nat)
    (h : releaseState s lid = some v) :
    releaseState (release s lid2) lid = some v := by
  rcases release_cases s lid2 with hcase | ⟨lk2, hf2, hs2, _⟩
  · rw [hcase]; exact h
  · obtain ⟨lk, hf, hs⟩ := releaseState_some_elim s lid v h
    have hne : lk.lockId ≠ lid2 := by
      intro he
      rw [lockId_of_findLock s lid lk hf] at he
      rw [he, hf2] at hf
      injection hf with h12
      rw [← h12, hs2] at hs
      cases hs
    unfold releaseState
    rw [findLock_release_pending_other s lid2 lk2 hf2 hs2 lid, hf]
    simp [hne, hs]

theorem releaseState_release_of_none_ne (s : Semaphore) (lid lid2 : Nat)
    (hne : lid ≠ lid2) (h : releaseState s lid = none) :
    releaseState (release s lid2) lid = none := by
  rcases release_cases s lid2 with hcase | ⟨lk2, hf2, hs2, _⟩
  · rw [hcase]; exact h
  · unfold releaseState at h ⊢
    rw [findLock_release_pending_other s lid2 lk2 hf2 hs2 lid]
    cases h4 : findLock s lid with
    | none => rfl
    | some lk =>
      rw [h4] at h
      have hid := lockId_of_findLock s lid lk h4
      have hstate : lk.state = none := by simpa using h
      simp [hid, hne, hstate]


theorem releaseState_wakeLoopB_of_some (s : Semaphore) (wid lid v : Nat)
    (h : releaseState s lid = some v) :
    releaseState (wakeLoopB s wid) lid = some v := by
  unfold wakeLoopB
  split
  · rw [startWaitB_releaseState]
    exact h
  · rw [releaseState_setResult]
    exact releaseState_admitNow_of_some s lid v h

theorem releaseState_wakeLoopB_of_none (s : Semaphore) (wid lid : Nat)
    (h : releaseState s lid = none) :
    releaseState (wakeLoopB s wid) lid = none := by
  unfold wakeLoopB
  split
  · rw [startWaitB_releaseState]
    exact h
  · rw [releaseState_setResult]
    exact releaseState_admitNow_of_none s lid h

theorem releaseState_runTaskB_of_some (s : Semaphore) (lid v : Nat)
    (h : releaseState s lid = some v) :
    releaseState (runTaskB s) lid = some v := by
  unfold runTaskB
  split
  · exact h
  · dsimp only
    split
    · exact (releaseState_updateLock _ _ lid
        (fun lk => { lk with inMap := false }) (fun l => rfl) (fun l => rfl)).trans h
    · split
      · exact releaseState_wakeLoopB_of_some _ _ lid v h
      · exact h
    · split
      · rw [releaseState_setResult]
        exact h
      · exact h

theorem releaseState_runTaskB_of_none (s : Semaphore) (lid : Nat)
    (h : releaseState s lid = none) :
    releaseState (runTaskB s) lid = none := by
  unfold runTaskB
  split
  · exact h
  · dsimp only
    split
    · exact (releaseState_updateLock _ _ lid
        (fun lk => { lk with inMap := false }) (fun l => rfl) (fun l => rfl)).trans h
    · split
      · exact releaseState_wakeLoopB_of_none _ _ lid h
      · exact h
    · split
      · rw [releaseState_setResult]
        exact h
      · exact h

theorem releaseState_getLockCallB_of_some (s : Semaphore) (lid v : Nat)
    (h : releaseState s lid = some v) :
    releaseState (getLockCallB s) lid = some v := by
  unfold getLockCallB
  split
  · rw [startWaitB_releaseState]
    exact h
  · exact releaseState_admitNow_of_some s lid v h

theorem releaseState_getLockCallB_of_none (s : Semaphore) (lid : Nat)
    (h : releaseState s lid = none) :
    releaseState (getLockCallB s) lid = none := by
  unfold getLockCallB
  split
  · rw [startWaitB_releaseState]
    exact h
  · exact releaseState_admitNow_of_none s lid h

theorem releaseState_applyB_of_some (s : Semaphore) (lid v : Nat) (a : Action)
    (h : releaseState s lid = some v) :
    releaseState (applyB s a) lid = some v := by
  cases a with
  | call => exact releaseState_getLockCallB_of_some s lid v h
  | rel lid2 => exact releaseState_release_of_some s lid lid2 v h
  | tick => exact releaseState_runTaskB_of_some s lid v h

theorem releaseState_applyB_of_none (s : Semaphore) (lid : Nat) (a : Action)
    (hna : a ≠ Action.rel lid) (h : releaseState s lid = none) :
    releaseState (applyB s a) lid = none := by
  cases a with
  | call => exact releaseState_getLockCallB_of_none s lid h
  | rel lid2 =>
    refine releaseState_release_of_none_ne s lid lid2 (fun he => hna ?_) h
    rw [he]
  | tick => exact releaseState_runTaskB_of_none s lid h

theorem releaseState_runB_of_some (s : Semaphore) (lid v : Nat) (tr : List Action)
    (h : releaseState s lid = some v) :
    releaseState (runB s tr) lid = some v := by
  induction tr generalizing s with
  | nil => exact h
  | cons a t ih => exact ih _ (releaseState_applyB_of_some s lid v a h)

theorem releaseState_runB_of_none (s : Semaphore) (lid : Nat) (tr : List Action)
    (hna : Action.rel lid ∉ tr) (h : releaseState s lid = none) :
    releaseState (runB s tr) lid = none := by
  induction tr generalizing s with
  | nil => exact h
  | cons a t ih =>
    exact ih _ (fun hc => hna (List.mem_cons_of_mem _ hc))
      (releaseState_applyB_of_none s lid a
        (fun he => hna (he ▸ List.mem_cons_self _ _)) h)

/-- C7: one-shot release semantics of `waitForRelease()`.  In the source,
every call to `waitForRelease()` returns the one stored `releasePromise`
(so all observers watch the same logical event — in the model, the
`state` field of the lock); this theorem states (i) once `release()` is
called on a pending distributed lock, that promise is fulfilled with the
lock's bound id; (ii) once fulfilled with a value, it keeps exactly that
value through every further action (it resolves only once, and every
observer sees the same event); (iii) if `release()` for this lock never
occurs in a trace, the promise stays pending forever. -/
theorem waitForRelease_one_shot (s : Semaphore) (lid : Nat) :
    (∀ lk, findLock s lid = some lk → lk.state = none →
        releaseState (release s lid) lid = some lid)
    ∧ (∀ (v : Nat) (tr : List Action), releaseState s lid = some v →
        releaseState (runB s tr) lid = some v)
    ∧ (∀ tr : List Action, releaseState s lid = none → Action.rel lid ∉ tr →
        releaseState (runB s tr) lid = none) :=
  ⟨fun lk h1 h2 => releaseState_release_pending s lid lk h1 h2,
   fun v tr h => releaseState_runB_of_some s lid v tr h,
   fun tr h hna => releaseState_runB_of_none s lid tr hna h⟩

/-- Witness for `waitForRelease_one_shot` at the concrete one-lock state:
lock 0 is pending; releasing it fulfills its promise with id 0; the value
survives further actions; and without a release over a tick-only trace it
stays pending. -/
theorem waitForRelease_one_shot_witness :
    releaseState (release oneLockHeld 0) 0 = some 0
    ∧ releaseState (runB (release oneLockHeld 0) [Action.tick, Action.tick]) 0 = some 0
    ∧ releaseState (runB oneLockHeld [Action.tick, Action.call]) 0 = none := by
  have h := waitForRelease_one_shot oneLockHeld 0
  refine ⟨?_, ?_, ?_⟩
  · exact h.1 { lockId := 0, state := none, inMap := true, callbacks := [Cb.del] }
      (by decide) (by decide)
  · exact (waitForRelease_one_shot (release oneLockHeld 0) 0).2.1 0
      [Action.tick, Action.tick] (by decide)
  · exact h.2.2 [Action.tick, Action.call] (by decide) (by decide)


/-! ## The scoped acquire-run-release path of performLockedOperation -/

theorem map_ite_id_of_fresh (s : Semaphore) (f : SemaphoreLock → SemaphoreLock)
    (hw : wellFormed s) :
    s.locks.map (fun l => if l.lockId = s.locks.length then f l else l) = s.locks := by
  have h : ∀ l ∈ s.locks,
      (if l.lockId = s.locks.length then f l else l) = l := by
    intro l hl
    rw [if_neg (Nat.ne_of_lt (hw l hl))]
  rw [List.map_congr_left h]
  simp

theorem find?_lockId_fresh (s : Semaphore) (hw : wellFormed s) :
    List.find? (fun x => decide (x.lockId = s.locks.length)) s.locks = none := by
  rw [List.find?_eq_none]
  intro x hx
  simp only [decide_eq_true_eq]
  exact Nat.ne_of_lt (hw x hx)

theorem findLock_admitNow_fresh (s : Semaphore) (hw : wellFormed s) :
    findLock (admitNow s).1 s.locks.length =
      some { lockId := s.locks.length, state := none, inMap := true,
             callbacks := [Cb.del] } := by
  show List.find? _ (s.locks ++ [_]) = _
  rw [List.find?_append, find?_lockId_fresh s hw]
  simp

theorem performLockedOperation_spec {E V : Type} (s : Semaphore) (op : Except E V)
    (hc : atCapacity s = false) (hw : wellFormed s) (ht : s.tasks = []) :
    performLockedOperation s op =
      some ({ maxLockCount := s.maxLockCount,
              locks := s.locks ++
                [{ lockId := s.locks.length, state := some s.locks.length,
                   inMap := true, callbacks := [Cb.del] }],
              callers := s.callers,
              tasks := [MTask.del s.locks.length] }, op) := by
  have hrel := release_of_pending (admitNow s).1 s.locks.length
    { lockId := s.locks.length, state := none, inMap := true, callbacks := [Cb.del] }
    (findLock_admitNow_fresh s hw) rfl
  unfold performLockedOperation
  rw [hc]
  simp only [Bool.false_eq_true, if_false]
  have houtcome :
      (match op with
       | Except.ok v => (Except.ok v : Except E V)
       | Except.error e => Except.error e) = op := by
    cases op <;> rfl
  rw [houtcome]
  refine congrArg (fun x => some (x, op)) ?_
  have h2 : (admitNow s).2 = s.locks.length := rfl
  rw [h2, hrel]
  show ({ updateLock (admitNow s).1 s.locks.length _ with tasks := _ } : Semaphore) = _
  unfold updateLock admitNow
  simp only [List.map_append, List.map_cons, List.map_nil]
  rw [map_ite_id_of_fresh s _ hw]
  simp [ht]

/-- C1: on the non-suspending admission path, `performLockedOperation`
releases the acquired lock exactly once on every exit path — the minted
lock's release promise ends fulfilled (with its bound id, fulfilled at
most once by one-shot promise semantics) and exactly one removal
notification is queued — and the returned outcome is the operation's own
outcome unchanged: the value on success and the original error on
failure, not wrapped; once the removal reaction runs, the outstanding
count is back to what it was before the call. -/
theorem performLocked_releases_on_all_paths {E V : Type} (s : Semaphore)
    (op : Except E V) (hc : atCapacity s = false) (hw : wellFormed s)
    (ht : s.tasks = []) :
    ∃ (s1 : Semaphore) (lid : Nat),
      performLockedOperation s op = some (s1, op)
      ∧ releaseState s1 lid = some lid
      ∧ s1.tasks = [MTask.del lid]
      ∧ getLockCount s1 = getLockCount s + 1
      ∧ getLockCount (runTaskB s1) = getLockCount s := by
  refine ⟨_, s.locks.length, performLockedOperation_spec s op hc hw ht, ?_, rfl, ?_, ?_⟩
  · show releaseState { mkSemaphore s.maxLockCount with
        locks := s.locks ++ [_], callers := s.callers, tasks := _ } s.locks.length = _
    unfold releaseState findLock
    show (match List.find? _ (s.locks ++ [_]) with
          | some lk => lk.state
          | none => none) = _
    rw [List.find?_append, find?_lockId_fresh s hw]
    simp
  · unfold getLockCount
    simp [List.countP_append, List.countP_cons]
  · unfold runTaskB
    show getLockCount (updateLock _ s.locks.length _) = getLockCount s
    unfold getLockCount updateLock
    simp only [List.map_append, List.map_cons, List.map_nil]
    rw [map_ite_id_of_fresh s _ hw]
    simp [List.countP_append, List.countP_cons]

/-- Witness for `performLocked_releases_on_all_paths`: a capacity-1
semaphore and a failing operation whose error value 7 is propagated
unchanged. -/
theorem performLocked_releases_on_all_paths_witness :
    ∃ (s1 : Semaphore) (lid : Nat),
      performLockedOperation (mkSemaphore 1) (Except.error (7 : Nat) : Except Nat Unit) =
        some (s1, Except.error 7)
      ∧ releaseState s1 lid = some lid
      ∧ s1.tasks = [MTask.del lid]
      ∧ getLockCount s1 = getLockCount (mkSemaphore 1) + 1
      ∧ getLockCount (runTaskB s1) = getLockCount (mkSemaphore 1) :=
  performLocked_releases_on_all_paths (mkSemaphore 1) (Except.error 7)
    (by decide) (by intro lk h; exact absurd h (List.not_mem_nil lk)) rfl

/-- C6: `performLockedOperation` applied to an operation whose outcome is
the value `V` resolves to exactly that value, unwrapped — the model's
`op` argument is the operation's settled outcome, covering both a
synchronous return and an asynchronous operation that later resolves
(`return await operation()` unwraps both alike). -/
theorem performLocked_resolves_to_value {E V : Type} (s : Semaphore) (v : V)
    (hc : atCapacity s = false) :
    ∃ s1 : Semaphore,
      performLockedOperation (E := E) s (Except.ok v) = some (s1, Except.ok v) := by
  unfold performLockedOperation
  rw [hc]
  exact ⟨_, rfl⟩

/-- Witness for `performLocked_resolves_to_value`: the fresh capacity-1
semaphore and the value 42. -/
theorem performLocked_resolves_to_value_witness :
    ∃ s1 : Semaphore,
      performLockedOperation (E := Unit) (mkSemaphore 1) (Except.ok (42 : Nat)) =
        some (s1, Except.ok 42) :=
  performLocked_resolves_to_value (mkSemaphore 1) 42 (by decide)


/-- C3: FIFO admission in the spec's capacity-3 scenario.  Three locks
(ids 0, 1, 2) are acquired and three further `getLock()` calls (callers
3, 4, 5) suspend; the three held locks are then released one at a time
in order, the event loop draining after each (the staggered timers).
The waiting callers are admitted in exactly the order they called
`getLock()`: caller 3 at the first release, caller 4 at the second,
caller 5 at the third — relative order `[0, 1, 2]`, matching the release
order. -/
theorem fifo_admission_scenario :
    (resultOf fifoStart 0 = CallerResult.admitted 0
     ∧ resultOf fifoStart 1 = CallerResult.admitted 1
     ∧ resultOf fifoStart 2 = CallerResult.admitted 2
     ∧ resultOf fifoStart 3 = CallerResult.pending
     ∧ resultOf fifoStart 4 = CallerResult.pending
     ∧ resultOf fifoStart 5 = CallerResult.pending)
    ∧ (resultOf fifoAfter0 3 = CallerResult.admitted 3
       ∧ resultOf fifoAfter0 4 = CallerResult.pending
       ∧ resultOf fifoAfter0 5 = CallerResult.pending)
    ∧ (resultOf fifoAfter1 4 = CallerResult.admitted 4
       ∧ resultOf fifoAfter1 5 = CallerResult.pending)
    ∧ (resultOf fifoAfter2 5 = CallerResult.admitted 5
       ∧ getLockCount fifoAfter2 = 3) := by decide

set_option maxRecDepth 10000 in
/-- C4: the two `getLock()` implementations are not observationally
equivalent when a caller has to wait.  With capacity 1, one lock held and
a second `getLock()` suspended: under v1.1.0 (await of `waitForRelease()`
promises) the system is quiescent — the microtask queue is empty, the
waiter stays pending, and a later release admits it; under v1.0.0 (await
of the `SemaphoreLock` objects themselves, which are not thenables and
are therefore treated by `Promise.any` as already-fulfilled values) the
waiter's await settles immediately with no release having happened, so
the wait loop busy-spins: after every number of processed microtasks the
queue is again non-empty and the waiter is still unadmitted — the event
loop never goes idle, so a timer-scheduled release never gets to run. -/
theorem loop_wait_divergence_v100_v110 :
    (cmpB.tasks = []
      ∧ resultOf cmpB 1 = CallerResult.pending
      ∧ resultOf (runTasksB 10 (release cmpB 0)) 1 = CallerResult.admitted 1)
    ∧ (cmpA.tasks ≠ []
      ∧ resultOf cmpA 1 = CallerResult.pending
      ∧ (runTasksA 25 cmpA).tasks ≠ []
      ∧ (runTasksA 100 cmpA).tasks ≠ []
      ∧ resultOf (runTasksA 100 cmpA) 1 = CallerResult.pending) := by decide

/-- Counterexample to C8 as stated: after a synchronous `release()` and
before the event loop runs the removal reaction, the id 0 is still
present in the outstanding-lock mapping (it is still counted by
`getLockCount()`), yet the lock stored under it is already released —
so not every id in the mapping corresponds to an unreleased lock at
every point. -/
theorem released_lock_still_mapped_cex :
    findLock justReleased 0 =
      some { lockId := 0, state := some 0, inMap := true, callbacks := [Cb.del] }
    ∧ getLockCount justReleased = 1
    ∧ releaseState justReleased 0 = some 0 := by decide

/-- Counterexample to C9 as stated: on a `Semaphore(0)` (and equally a
negative capacity), `getLock()` does not wait forever — with the
outstanding map empty, `Promise.any` over the empty iterable rejects
with an `AggregateError`, so the call settles (rejected) after a single
microtask. -/
theorem zero_capacity_getLock_rejects_cex :
    resultOf (runTasksB 1 (runB (mkSemaphore 0) [Action.call])) 0 = CallerResult.rejected
    ∧ resultOf (runTasksB 1 (runB (mkSemaphore (-3)) [Action.call])) 0
        = CallerResult.rejected := by decide


/-! ## Capacity preservation through every action -/

theorem getLockCallB_max (s : Semaphore) :
    (getLockCallB s).maxLockCount = s.maxLockCount := by
  unfold getLockCallB
  split
  · rw [startWaitB_max]
  · rfl

theorem wakeLoopB_max (s : Semaphore) (wid : Nat) :
    (wakeLoopB s wid).maxLockCount = s.maxLockCount := by
  unfold wakeLoopB
  split
  · rw [startWaitB_max, setRound_max]
  · rfl

theorem runTaskB_max (s : Semaphore) :
    (runTaskB s).maxLockCount = s.maxLockCount := by
  unfold runTaskB
  split
  · rfl
  · dsimp only
    split
    · rfl
    · split
      · rw [wakeLoopB_max]
      · rfl
    · split
      · rfl
      · rfl

theorem applyB_max (s : Semaphore) (a : Action) :
    (applyB s a).maxLockCount = s.maxLockCount := by
  cases a with
  | call => exact getLockCallB_max s
  | rel lid => exact release_max s lid
  | tick => exact runTaskB_max s

theorem lt_max_of_not_atCapacity (s : Semaphore) (hcap : atCapacity s = false) :
    (getLockCount s : Int) < s.maxLockCount := by
  by_contra hx
  push_neg at hx
  have : atCapacity s = true := by
    simp only [atCapacity, decide_eq_true_eq]
    exact hx
  rw [this] at hcap
  cases hcap

theorem countInv_getLockCallB (s : Semaphore)
    (h : (getLockCount s : Int) ≤ s.maxLockCount) :
    (getLockCount (getLockCallB s) : Int) ≤ s.maxLockCount := by
  unfold getLockCallB
  split
  · rw [startWaitB_count]
    exact h
  · next hcap =>
    have hlt := lt_max_of_not_atCapacity s (by simpa using hcap)
    show ((getLockCount (admitNow s).1 : Int)) ≤ s.maxLockCount
    rw [admitNow_count]
    push_cast
    omega

theorem countInv_wakeLoopB (s : Semaphore) (wid : Nat)
    (h : (getLockCount s : Int) ≤ s.maxLockCount) :
    (getLockCount (wakeLoopB s wid) : Int) ≤ s.maxLockCount := by
  unfold wakeLoopB
  split
  · rw [startWaitB_count, getLockCount_setRound]
    exact h
  · next hcap =>
    have hlt := lt_max_of_not_atCapacity s (by simpa using hcap)
    show ((getLockCount (admitNow s).1 : Int)) ≤ s.maxLockCount
    rw [admitNow_count]
    push_cast
    omega

theorem countInv_runTaskB (s : Semaphore)
    (h : (getLockCount s : Int) ≤ s.maxLockCount) :
    (getLockCount (runTaskB s) : Int) ≤ s.maxLockCount := by
  unfold runTaskB
  split
  · exact h
  · dsimp only
    split
    · refine le_trans ?_ h
      exact_mod_cast getLockCount_updateLock_le _ _ _ (fun l hl => by cases hl)
    · split
      · exact countInv_wakeLoopB _ _ h
      · exact h
    · split
      · rw [getLockCount_setResult]
        exact h
      · exact h

theorem countInv_applyB (s : Semaphore) (a : Action)
    (h : (getLockCount s : Int) ≤ s.maxLockCount) :
    (getLockCount (applyB s a) : Int) ≤ (applyB s a).maxLockCount := by
  rw [applyB_max]
  cases a with
  | call => exact countInv_getLockCallB s h
  | rel lid =>
    show (getLockCount (release s lid) : Int) ≤ s.maxLockCount
    rw [release_count]
    exact h
  | tick => exact countInv_runTaskB s h

theorem countInv_runB (s : Semaphore) (tr : List Action)
    (h : (getLockCount s : Int) ≤ s.maxLockCount) :
    (getLockCount (runB s tr) : Int) ≤ (runB s tr).maxLockCount := by
  induction tr generalizing s with
  | nil => exact h
  | cons a t ih => exact ih _ (countInv_applyB s a h)


/-! ## A fresh semaphore after k immediate admissions -/

theorem getLockCount_explicit (n k : Nat) : getLockCount (explicitState n k) = k := by
  unfold getLockCount explicitState
  rw [List.countP_map]
  have h : ((fun l => l.inMap) ∘ kLock) = fun i : Nat => true := rfl
  rw [h, List.countP_true, List.length_range]

theorem atCapacity_explicit_lt (n k : Nat) (h : k < n) :
    atCapacity (explicitState n k) = false := by
  have hmax : (explicitState n k).maxLockCount = (n : Int) := rfl
  unfold atCapacity
  rw [getLockCount_explicit, hmax]
  simp only [decide_eq_false_iff_not]
  exact_mod_cast Nat.not_le.mpr h

theorem atCapacity_explicit_self (n : Nat) :
    atCapacity (explicitState n n) = true := by
  have hmax : (explicitState n n).maxLockCount = (n : Int) := rfl
  unfold atCapacity
  rw [getLockCount_explicit, hmax]
  simp

theorem run_replicate_call (n k : Nat) (h : k ≤ n) :
    runB (mkSemaphore n) (List.replicate k Action.call) = explicitState n k := by
  induction k with
  | zero => rfl
  | succ k ih =>
    have hk : k ≤ n := Nat.le_of_succ_le h
    have hlt : k < n := Nat.lt_of_succ_le h
    rw [List.replicate_succ']
    show List.foldl applyB (mkSemaphore n) (List.replicate k Action.call ++ [Action.call]) = _
    rw [List.foldl_append]
    have hbase : List.foldl applyB (mkSemaphore n) (List.replicate k Action.call)
        = explicitState n k := ih hk
    rw [hbase]
    show getLockCallB (explicitState n k) = explicitState n (k + 1)
    unfold getLockCallB
    rw [atCapacity_explicit_lt n k hlt]
    simp only [Bool.false_eq_true, if_false]
    unfold admitNow explicitState
    simp only [List.length_map, List.length_range, List.range_succ, List.map_append,
      List.map_cons, List.map_nil]
    rfl


/-- C10: a fresh `Semaphore(n)` reports capacity `n` and zero outstanding
locks, and after `k ≤ n` sequential `getLock()` calls — all admitted
immediately, no release — `getLockCount()` reports exactly `k` (and the
capacity still reads `n`). -/
theorem count_reports (n k : Nat) (_h1 : 0 < n) (h2 : k ≤ n) :
    getMaximumLockCount (mkSemaphore n) = n
    ∧ getLockCount (mkSemaphore n) = 0
    ∧ getMaximumLockCount (runB (mkSemaphore n) (List.replicate k Action.call)) = n
    ∧ getLockCount (runB (mkSemaphore n) (List.replicate k Action.call)) = k
    ∧ admittedCount (runB (mkSemaphore n) (List.replicate k Action.call)) = k := by
  rw [run_replicate_call n k h2]
  refine ⟨rfl, rfl, rfl, getLockCount_explicit n k, ?_⟩
  unfold admittedCount explicitState
  rw [List.countP_map]
  have h : ((fun c => match c.result with
      | CallerResult.admitted _ => true
      | _ => false) ∘ okCaller) = fun i : Nat => true := rfl
  rw [h, List.countP_true, List.length_range]

/-- Witness for `count_reports` at `n = 2`, `k = 2`. -/
theorem count_reports_witness :
    getMaximumLockCount (mkSemaphore 2) = 2
    ∧ getLockCount (mkSemaphore 2) = 0
    ∧ getMaximumLockCount (runB (mkSemaphore 2) (List.replicate 2 Action.call)) = 2
    ∧ getLockCount (runB (mkSemaphore 2) (List.replicate 2 Action.call)) = 2
    ∧ admittedCount (runB (mkSemaphore 2) (List.replicate 2 Action.call)) = 2 :=
  count_reports 2 2 (by decide) (by decide)

/-! ## The (n+1)-th call suspends while the count stays at n -/

theorem after_extra_call (n : Nat) (h : 0 < n) :
    getLockCount (runB (mkSemaphore n) (List.replicate (n + 1) Action.call)) = n
    ∧ admittedCount (runB (mkSemaphore n) (List.replicate (n + 1) Action.call)) = n
    ∧ resultOf (runB (mkSemaphore n) (List.replicate (n + 1) Action.call)) n
        = CallerResult.pending
    ∧ (runB (mkSemaphore n) (List.replicate (n + 1) Action.call)).tasks = [] := by
  have hrun : runB (mkSemaphore n) (List.replicate (n + 1) Action.call)
      = getLockCallB (explicitState n n) := by
    show List.foldl applyB (mkSemaphore n) (List.replicate (n + 1) Action.call) = _
    rw [List.replicate_succ', List.foldl_append]
    have hbase : List.foldl applyB (mkSemaphore n) (List.replicate n Action.call)
        = explicitState n n := run_replicate_call n n le_rfl
    rw [hbase]
    rfl
  rw [hrun]
  unfold getLockCallB
  rw [atCapacity_explicit_self n]
  simp only [if_true]
  have hout : outstanding { explicitState n n with
      callers := (explicitState n n).callers ++
        [{ round := 0, result := CallerResult.pending }] } = (List.range n).map kLock := by
    show List.filter _ ((List.range n).map kLock) = _
    refine List.filter_eq_self.mpr ?_
    intro a ha
    obtain ⟨i, _, rfl⟩ := List.mem_map.mp ha
    rfl
  have hpend : ∀ l ∈ outstanding { explicitState n n with
      callers := (explicitState n n).callers ++
        [{ round := 0, result := CallerResult.pending }] }, l.state = none := by
    rw [hout]
    intro l hl
    obtain ⟨i, _, rfl⟩ := List.mem_map.mp hl
    rfl
  have hnemp : (outstanding { explicitState n n with
      callers := (explicitState n n).callers ++
        [{ round := 0, result := CallerResult.pending }] }).isEmpty = false := by
    rw [hout, List.isEmpty_eq_false]
    intro hnil
    have hlen := congrArg List.length hnil
    simp only [List.length_map, List.length_range, List.length_nil] at hlen
    omega
  have hcal := startWaitB_callers { explicitState n n with
      callers := (explicitState n n).callers ++
        [{ round := 0, result := CallerResult.pending }] }
    (explicitState n n).callers.length 0
  have htas := startWaitB_tasks_of_pending { explicitState n n with
      callers := (explicitState n n).callers ++
        [{ round := 0, result := CallerResult.pending }] }
    (explicitState n n).callers.length 0 hpend hnemp
  have hcnt := startWaitB_count { explicitState n n with
      callers := (explicitState n n).callers ++
        [{ round := 0, result := CallerResult.pending }] }
    (explicitState n n).callers.length 0
  have hlen : ((List.range n).map okCaller).length = n := by
    rw [List.length_map, List.length_range]
  refine ⟨?_, ?_, ?_, ?_⟩
  · rw [hcnt]
    show getLockCount (explicitState n n) = n
    exact getLockCount_explicit n n
  · unfold admittedCount
    rw [hcal]
    show List.countP _ ((List.range n).map okCaller ++ [_]) = n
    rw [List.countP_append, List.countP_map]
    have h1 : ((fun c => match c.result with
        | CallerResult.admitted _ => true
        | _ => false) ∘ okCaller) = fun i : Nat => true := rfl
    rw [h1, List.countP_true, List.length_range]
    rfl
  · unfold resultOf
    rw [hcal]
    show (((List.range n).map okCaller ++
        ([{ round := 0, result := CallerResult.pending }] : List Caller)).getD n _).result = _
    rw [List.getD_eq_getElem?_getD, List.getElem?_append]
    simp [hlen]
  · rw [htas]
    rfl

/-- C2: the capacity bound and the blocked (n+1)-th caller.  First, for a
`Semaphore(n)` with `n > 0`, along every action trace the observable
`getLockCount()` never exceeds `getMaximumLockCount()`.  Second, issuing
`n + 1` `getLock()` calls with no release admits exactly the first `n`
immediately, leaves the `(n+1)`-th caller suspended, and `getLockCount()`
sits at `n`; the microtask queue is empty, so however many further
microtasks the event loop runs (with no release), nothing changes —
the count stays `n` and the extra caller stays pending. -/
theorem capacity_bound_and_blocked_extra (n : Nat) (h : 0 < n)
    (tr : List Action) (k : Nat) :
    ((getLockCount (runB (mkSemaphore n) tr) : Int)
        ≤ getMaximumLockCount (runB (mkSemaphore n) tr))
    ∧ (getLockCount (runTasksB k (runB (mkSemaphore n)
          (List.replicate (n + 1) Action.call))) = n
       ∧ admittedCount (runTasksB k (runB (mkSemaphore n)
          (List.replicate (n + 1) Action.call))) = n
       ∧ resultOf (runTasksB k (runB (mkSemaphore n)
          (List.replicate (n + 1) Action.call))) n = CallerResult.pending) := by
  obtain ⟨hc, ha, hr, ht⟩ := after_extra_call n h
  have hfix := runTasksB_of_nil k (runB (mkSemaphore n)
    (List.replicate (n + 1) Action.call)) ht
  refine ⟨?_, ?_, ?_, ?_⟩
  · exact countInv_runB (mkSemaphore n) tr (by
      show ((0 : Nat) : Int) ≤ (n : Int)
      exact_mod_cast Nat.zero_le n)
  · rw [hfix]; exact hc
  · rw [hfix]; exact ha
  · rw [hfix]; exact hr

/-- Witness for `capacity_bound_and_blocked_extra` at `n = 1` with a
short trace. -/
theorem capacity_bound_and_blocked_extra_witness :
    ((getLockCount (runB (mkSemaphore 1) [Action.call, Action.call, Action.tick]) : Int)
        ≤ getMaximumLockCount (runB (mkSemaphore 1)
            [Action.call, Action.call, Action.tick]))
    ∧ (getLockCount (runTasksB 3 (runB (mkSemaphore 1)
          (List.replicate 2 Action.call))) = 1
       ∧ admittedCount (runTasksB 3 (runB (mkSemaphore 1)
          (List.replicate 2 Action.call))) = 1
       ∧ resultOf (runTasksB 3 (runB (mkSemaphore 1)
          (List.replicate 2 Action.call))) 1 = CallerResult.pending) :=
  capacity_bound_and_blocked_extra 1 (by decide) [Action.call, Action.call, Action.tick] 3


/-! ## Preservation of the outstanding-map invariant -/

theorem part1_of_skel (s t : Semaphore)
    (hsk : t.locks.map skel = s.locks.map skel)
    (h1 : ∀ (i : Nat) (lk : SemaphoreLock), s.locks[i]? = some lk → lk.lockId = i) :
    ∀ (i : Nat) (lk : SemaphoreLock), t.locks[i]? = some lk → lk.lockId = i := by
  intro i lk hi
  have hmap := congrArg (fun l => l[i]?) hsk
  simp only [List.getElem?_map] at hmap
  rw [hi] at hmap
  cases hs : s.locks[i]? with
  | none => rw [hs] at hmap; cases hmap
  | some lk2 =>
    rw [hs] at hmap
    have hskel : skel lk = skel lk2 := Option.some.inj hmap
    have hid : lk.lockId = lk2.lockId := congrArg Prod.fst hskel
    rw [hid]
    exact h1 i lk2 hs

theorem part2_of_skel (s t : Semaphore)
    (hsk : t.locks.map skel = s.locks.map skel)
    (h2 : ∀ lk ∈ s.locks, lk.state = none → lk.inMap = true) :
    ∀ lk ∈ t.locks, lk.state = none → lk.inMap = true := by
  intro lk hm hst
  have hmem : skel lk ∈ s.locks.map skel := by
    rw [← hsk]
    exact List.mem_map_of_mem skel hm
  obtain ⟨lk2, hm2, hsk2⟩ := List.mem_map.mp hmem
  have hstate : lk2.state = lk.state := congrArg (fun p => p.2.1) hsk2
  have hmapf : lk2.inMap = lk.inMap := congrArg (fun p => p.2.2) hsk2
  rw [← hmapf]
  exact h2 lk2 hm2 (hstate.trans hst)

theorem lock_unique (s : Semaphore)
    (h1 : ∀ (i : Nat) (lk : SemaphoreLock), s.locks[i]? = some lk → lk.lockId = i)
    (l1 l2 : SemaphoreLock) (hm1 : l1 ∈ s.locks) (hm2 : l2 ∈ s.locks)
    (he : l1.lockId = l2.lockId) : l1 = l2 := by
  obtain ⟨i, hi⟩ := List.mem_iff_getElem?.mp hm1
  obtain ⟨j, hj⟩ := List.mem_iff_getElem?.mp hm2
  have hij : i = j := by
    rw [← h1 i l1 hi, ← h1 j l2 hj, he]
  rw [hij] at hi
  rw [hi] at hj
  exact Option.some.inj hj

theorem part1_updateLock (s : Semaphore) (lid : Nat)
    (f : SemaphoreLock → SemaphoreLock) (hf : ∀ l, (f l).lockId = l.lockId)
    (h1 : ∀ (i : Nat) (lk : SemaphoreLock), s.locks[i]? = some lk → lk.lockId = i) :
    ∀ (i : Nat) (lk : SemaphoreLock),
      (updateLock s lid f).locks[i]? = some lk → lk.lockId = i := by
  intro i lk hi
  have hi2 : (s.locks.map (fun l => if l.lockId = lid then f l else l))[i]? = some lk := hi
  rw [List.getElem?_map] at hi2
  cases hs : s.locks[i]? with
  | none => rw [hs] at hi2; cases hi2
  | some l0 =>
    rw [hs] at hi2
    have heq : (if l0.lockId = lid then f l0 else l0) = lk := Option.some.inj hi2
    by_cases hl : l0.lockId = lid
    · rw [if_pos hl] at heq
      rw [← heq, hf]
      exact h1 i l0 hs
    · rw [if_neg hl] at heq
      rw [← heq]
      exact h1 i l0 hs

theorem waitFold_tasks_mem (wid r : Nat) (L : List SemaphoreLock) (s : Semaphore)
    (t : MTask) (ht : t ∈ (L.foldl (waitStep wid r) s).tasks) :
    t ∈ s.tasks ∨ ∃ w q lid, t = MTask.anyResolve w q lid := by
  induction L generalizing s with
  | nil => exact Or.inl ht
  | cons l tl ih =>
    rcases ih (waitStep wid r s l) ht with hmem | hres
    · unfold waitStep at hmem
      cases hls : l.state with
      | none =>
        rw [hls] at hmem
        exact Or.inl hmem
      | some v =>
        rw [hls] at hmem
        rcases List.mem_append.mp hmem with hmem2 | hmem2
        · exact Or.inl hmem2
        · simp only [List.mem_singleton] at hmem2
          exact Or.inr ⟨wid, r, l.lockId, hmem2⟩
    · exact Or.inr hres

theorem startWaitB_tasks_mem (s : Semaphore) (wid r : Nat) (t : MTask)
    (ht : t ∈ (startWaitB s wid r).tasks) :
    t ∈ s.tasks ∨ (∃ w q lid, t = MTask.anyResolve w q lid)
      ∨ ∃ w q, t = MTask.anyReject w q := by
  unfold startWaitB at ht
  by_cases h : (outstanding s).isEmpty
  · simp only [h, if_true] at ht
    rcases List.mem_append.mp ht with hmem | hmem
    · exact Or.inl hmem
    · simp only [List.mem_singleton] at hmem
      exact Or.inr (Or.inr ⟨wid, r, hmem⟩)
  · simp only [h, Bool.false_eq_true, if_false] at ht
    rcases waitFold_tasks_mem wid r (outstanding s) s t ht with hmem | hres
    · exact Or.inl hmem
    · exact Or.inr (Or.inl hres)

theorem mapInv_startWaitB (s : Semaphore) (wid r : Nat) (h : MapInv s) :
    MapInv (startWaitB s wid r) := by
  obtain ⟨h1, h2, h3⟩ := h
  refine ⟨part1_of_skel s _ (startWaitB_skel s wid r) h1,
          part2_of_skel s _ (startWaitB_skel s wid r) h2, ?_⟩
  intro lid ht
  rw [startWaitB_releaseState]
  rcases startWaitB_tasks_mem s wid r _ ht with hmem | ⟨w, q, l, he⟩ | ⟨w, q, he⟩
  · exact h3 lid hmem
  · cases he
  · cases he

theorem mapInv_admitNow (s : Semaphore) (h : MapInv s) : MapInv (admitNow s).1 := by
  obtain ⟨h1, h2, h3⟩ := h
  refine ⟨?_, ?_, ?_⟩
  · intro i lk hi
    have hi2 : (s.locks ++
        [{ lockId := s.locks.length, state := none, inMap := true,
           callbacks := [Cb.del] }])[i]? = some lk := hi
    rw [List.getElem?_append] at hi2
    by_cases hlt : i < s.locks.length
    · rw [if_pos hlt] at hi2
      exact h1 i lk hi2
    · rw [if_neg hlt] at hi2
      cases hd : i - s.locks.length with
      | zero =>
        rw [hd] at hi2
        simp only [List.getElem?_cons_zero] at hi2
        have hlk := Option.some.inj hi2
        rw [← hlk]
        show s.locks.length = i
        omega
      | succ m =>
        rw [hd] at hi2
        simp at hi2
  · intro lk hm hst
    have hm2 : lk ∈ s.locks ++
        [{ lockId := s.locks.length, state := none, inMap := true,
           callbacks := [Cb.del] }] := hm
    rcases List.mem_append.mp hm2 with hmem | hmem
    · exact h2 lk hmem hst
    · simp only [List.mem_singleton] at hmem
      rw [hmem]
  · intro lid ht
    obtain ⟨v, hv⟩ := Option.ne_none_iff_exists'.mp (h3 lid ht)
    rw [releaseState_admitNow_of_some s lid v hv]
    simp


theorem mapInv_wakeLoopB (s : Semaphore) (wid : Nat) (h : MapInv s) :
    MapInv (wakeLoopB s wid) := by
  unfold wakeLoopB
  split
  · exact mapInv_startWaitB _ _ _ h
  · exact mapInv_admitNow s h

theorem mapInv_getLockCallB (s : Semaphore) (h : MapInv s) :
    MapInv (getLockCallB s) := by
  unfold getLockCallB
  split
  · exact mapInv_startWaitB _ _ _ h
  · exact mapInv_admitNow s h

theorem mapInv_release (s : Semaphore) (lid : Nat) (h : MapInv s) :
    MapInv (release s lid) := by
  rcases release_cases s lid with hc | ⟨lk, hf, hs, hc⟩
  · rw [hc]; exact h
  · obtain ⟨h1, h2, h3⟩ := h
    refine ⟨?_, ?_, ?_⟩
    · rw [hc]
      exact part1_updateLock s lid _ (fun l => rfl) h1
    · rw [hc]
      intro lk' hm' hst'
      have hm2 : lk' ∈ s.locks.map
          (fun l => if l.lockId = lid then { l with state := some l.lockId } else l) := hm'
      obtain ⟨l, hl, hgl⟩ := List.mem_map.mp hm2
      by_cases hid : l.lockId = lid
      · rw [if_pos hid] at hgl
        rw [← hgl] at hst'
        cases hst'
      · rw [if_neg hid] at hgl
        rw [← hgl] at hst' ⊢
        exact h2 l hl hst'
    · intro lid' ht'
      rw [hc] at ht'
      have ht2 : MTask.del lid' ∈ s.tasks ++ lk.callbacks.map (fun cb =>
          match cb with
          | Cb.del => MTask.del lid
          | Cb.anyWake w r => MTask.anyResolve w r lid) := ht'
      rcases List.mem_append.mp ht2 with hmem | hmem
      · obtain ⟨v, hv⟩ := Option.ne_none_iff_exists'.mp (h3 lid' hmem)
        rw [releaseState_release_of_some s lid' lid v hv]
        simp
      · obtain ⟨cb, _, hconv⟩ := List.mem_map.mp hmem
        cases cb with
        | del =>
          have hlid : lid = lid' := by injection hconv
          rw [← hlid, releaseState_release_pending s lid lk hf hs]
          simp
        | anyWake w r => cases hconv

theorem mapInv_runTaskB (s : Semaphore) (h : MapInv s) : MapInv (runTaskB s) := by
  obtain ⟨h1, h2, h3⟩ := h
  cases htask : s.tasks with
  | nil =>
    unfold runTaskB
    rw [htask]
    exact ⟨h1, h2, h3⟩
  | cons t rest =>
    have hInv0 : MapInv { s with tasks := rest } :=
      ⟨h1, h2, fun lid' ht' => h3 lid' (htask ▸ List.mem_cons_of_mem _ ht')⟩
    unfold runTaskB
    rw [htask]
    cases t with
    | del lid2 =>
      show MapInv (updateLock { s with tasks := rest } lid2
        (fun lk => { lk with inMap := false }))
      have hrel : releaseState s lid2 ≠ none :=
        h3 lid2 (htask ▸ List.mem_cons_self _ _)
      obtain ⟨v, hv⟩ := Option.ne_none_iff_exists'.mp hrel
      obtain ⟨lk0, hf0, hs0⟩ := releaseState_some_elim s lid2 v hv
      refine ⟨?_, ?_, ?_⟩
      · exact part1_updateLock _ lid2 _ (fun l => rfl) h1
      · intro lk' hm' hst'
        have hm2 : lk' ∈ s.locks.map
            (fun l => if l.lockId = lid2 then { l with inMap := false } else l) := hm'
        obtain ⟨l, hl, hgl⟩ := List.mem_map.mp hm2
        by_cases hid : l.lockId = lid2
        · exfalso
          have hlk0mem : lk0 ∈ s.locks := List.mem_of_find?_eq_some hf0
          have hlk0id : lk0.lockId = lid2 := lockId_of_findLock s lid2 lk0 hf0
          have hleq : l = lk0 :=
            lock_unique s h1 l lk0 hl hlk0mem (by rw [hid, hlk0id])
          rw [if_pos hid] at hgl
          rw [← hgl] at hst'
          have : l.state = none := hst'
          rw [hleq, hs0] at this
          cases this
        · rw [if_neg hid] at hgl
          rw [← hgl] at hst' ⊢
          exact h2 l hl hst'
      · intro lid' ht'
        have hmemrest : MTask.del lid' ∈ rest := ht'
        obtain ⟨w, hw⟩ := Option.ne_none_iff_exists'.mp
          (h3 lid' (htask ▸ List.mem_cons_of_mem _ hmemrest))
        have hpres := releaseState_updateLock { s with tasks := rest } lid2 lid'
          (fun lk => { lk with inMap := false }) (fun l => rfl) (fun l => rfl)
        rw [hpres]
        show releaseState s lid' ≠ none
        rw [hw]
        simp
    | anyResolve wid r z =>
      show MapInv (if roundOf { s with tasks := rest } wid = r
          ∧ resultOf { s with tasks := rest } wid = CallerResult.pending then
            wakeLoopB { s with tasks := rest } wid
          else { s with tasks := rest })
      split
      · exact mapInv_wakeLoopB _ _ hInv0
      · exact hInv0
    | anyReject wid r =>
      show MapInv (if roundOf { s with tasks := rest } wid = r
          ∧ resultOf { s with tasks := rest } wid = CallerResult.pending then
            setResult { s with tasks := rest } wid CallerResult.rejected
          else { s with tasks := rest })
      split
      · exact hInv0
      · exact hInv0

theorem mapInv_applyB (s : Semaphore) (a : Action) (h : MapInv s) :
    MapInv (applyB s a) := by
  cases a with
  | call => exact mapInv_getLockCallB s h
  | rel lid => exact mapInv_release s lid h
  | tick => exact mapInv_runTaskB s h

theorem mapInv_runB (s : Semaphore) (tr : List Action) (h : MapInv s) :
    MapInv (runB s tr) := by
  induction tr generalizing s with
  | nil => exact h
  | cons a t ih => exact ih _ (mapInv_applyB s a h)

/-- C8 (amended): along every trace of a semaphore, the outstanding-lock
mapping satisfies the invariant that actually holds of the code: each
position of the mint sequence holds the lock bound to exactly that id (so
ids are unique: two registered locks with the same id are the same lock,
and each mapping entry is the one lock bound to its id); every unreleased
lock remains registered from admission at least until its release — a
removal reaction only ever exists for an already-released lock.  The
amendment forced by the counterexample: between `release()` and the
asynchronous removal reaction (one microtask later), the mapping may
briefly still contain the already-released lock, so "every id in the
mapping corresponds to an unreleased lock" holds only once queued removal
reactions have run, not at every instant. -/
theorem mapping_invariant_amended (m : Int) (tr : List Action) :
    MapInv (runB (mkSemaphore m) tr)
    ∧ (∀ l1 l2, l1 ∈ (runB (mkSemaphore m) tr).locks →
        l2 ∈ (runB (mkSemaphore m) tr).locks → l1.lockId = l2.lockId → l1 = l2) := by
  have hinit : MapInv (mkSemaphore m) := by
    refine ⟨?_, ?_, ?_⟩
    · intro i lk hi
      simp [mkSemaphore] at hi
    · intro lk hm
      simp [mkSemaphore] at hm
    · intro lid ht
      simp [mkSemaphore] at ht
  have h := mapInv_runB (mkSemaphore m) tr hinit
  exact ⟨h, fun l1 l2 hm1 hm2 he =>
    lock_unique (runB (mkSemaphore m) tr) h.1 l1 l2 hm1 hm2 he⟩


/-! ## A semaphore of non-positive capacity never admits -/

theorem atCapacity_of_deadCap (s : Semaphore) (hm : s.maxLockCount ≤ 0)
    (hl : s.locks = []) : atCapacity s = true := by
  unfold atCapacity getLockCount
  rw [hl]
  simp only [List.countP_nil, decide_eq_true_eq]
  exact_mod_cast hm

theorem deadCap_applyB (s : Semaphore) (a : Action) (hm : s.maxLockCount ≤ 0)
    (h : DeadCapInv s) : DeadCapInv (applyB s a) := by
  obtain ⟨hl, ht, hc⟩ := h
  cases a with
  | call =>
    show DeadCapInv (getLockCallB s)
    unfold getLockCallB
    rw [atCapacity_of_deadCap s hm hl]
    simp only [if_true]
    unfold startWaitB
    have hout : outstanding { s with
        callers := s.callers ++ [{ round := 0, result := CallerResult.pending }] } = [] := by
      show List.filter _ s.locks = []
      rw [hl]
      rfl
    rw [hout]
    simp only [List.isEmpty_nil, if_true]
    refine ⟨hl, ?_, ?_⟩
    · intro t htm
      rcases List.mem_append.mp htm with hmem | hmem
      · exact ht t hmem
      · simp only [List.mem_singleton] at hmem
        exact ⟨_, _, hmem⟩
    · intro c hcm
      rcases List.mem_append.mp hcm with hmem | hmem
      · exact hc c hmem
      · simp only [List.mem_singleton] at hmem
        rw [hmem]
        exact Or.inl rfl
  | rel lid =>
    show DeadCapInv (release s lid)
    rw [release_of_none s lid (by unfold findLock; rw [hl]; rfl)]
    exact ⟨hl, ht, hc⟩
  | tick =>
    show DeadCapInv (runTaskB s)
    cases htask : s.tasks with
    | nil =>
      unfold runTaskB
      rw [htask]
      exact ⟨hl, ht, hc⟩
    | cons t rest =>
      have hrest : ∀ u ∈ rest, ∃ w r, u = MTask.anyReject w r :=
        fun u hu => ht u (htask ▸ List.mem_cons_of_mem _ hu)
      obtain ⟨w, r, hw⟩ := ht t (htask ▸ List.mem_cons_self _ _)
      unfold runTaskB
      rw [htask, hw]
      show DeadCapInv (if roundOf { s with tasks := rest } w = r
          ∧ resultOf { s with tasks := rest } w = CallerResult.pending then
            setResult { s with tasks := rest } w CallerResult.rejected
          else { s with tasks := rest })
      split
      · refine ⟨hl, hrest, ?_⟩
        intro c hcm
        rcases List.mem_or_eq_of_mem_set hcm with hmem | hmem
        · exact hc c hmem
        · rw [hmem]
          exact Or.inr rfl
      · exact ⟨hl, hrest, hc⟩

theorem deadCap_runB (s : Semaphore) (tr : List Action) (hm : s.maxLockCount ≤ 0)
    (h : DeadCapInv s) : DeadCapInv (runB s tr) := by
  induction tr generalizing s with
  | nil => exact h
  | cons a t ih =>
    exact ih (applyB s a) (by rw [applyB_max]; exact hm) (deadCap_applyB s a hm h)

/-- C9 (amended): the constructor accepts any capacity — 0 or negative —
without raising anything (`mkSemaphore` is total and merely stores the
value), and on such a semaphore no `getLock()` call is ever admitted: no
lock is ever minted along any trace, `getLockCount()` stays 0, and each
caller either stays pending or is *rejected* — because the wait loop
awaits `Promise.any` over the empty collection of outstanding locks,
which rejects with an `AggregateError`.  The amendment forced by the
counterexample: such a `getLock()` call does not wait forever; it fails. -/
theorem zero_capacity_never_admits (m : Int) (h : m ≤ 0) (tr : List Action) :
    mkSemaphore m = { maxLockCount := m, locks := [], callers := [], tasks := [] }
    ∧ DeadCapInv (runB (mkSemaphore m) tr)
    ∧ getLockCount (runB (mkSemaphore m) tr) = 0
    ∧ admittedCount (runB (mkSemaphore m) tr) = 0 := by
  have hinit : DeadCapInv (mkSemaphore m) := by
    refine ⟨rfl, ?_, ?_⟩
    · intro t htm
      cases htm
    · intro c hcm
      cases hcm
  have hdc : DeadCapInv (runB (mkSemaphore m) tr) :=
    deadCap_runB (mkSemaphore m) tr h hinit
  refine ⟨rfl, hdc, ?_, ?_⟩
  · unfold getLockCount
    rw [hdc.1]
    rfl
  · unfold admittedCount
    rw [List.countP_eq_zero]
    intro c hcm
    rcases hdc.2.2 c hcm with hres | hres <;> rw [hres] <;> simp

/-- Witness for `zero_capacity_never_admits`: capacity 0 and the trace of
one `getLock()` call followed by one microtask. -/
theorem zero_capacity_never_admits_witness :
    mkSemaphore 0 = { maxLockCount := 0, locks := [], callers := [], tasks := [] }
    ∧ DeadCapInv (runB (mkSemaphore 0) [Action.call, Action.tick])
    ∧ getLockCount (runB (mkSemaphore 0) [Action.call, Action.tick]) = 0
    ∧ admittedCount (runB (mkSemaphore 0) [Action.call, Action.tick]) = 0 :=
  zero_capacity_never_admits 0 (by decide) [Action.call, Action.tick]

